import Mathlib

/-!
Verification of the keybinding registry and dispatcher
(`src/ts/client/grapesjs/keybindings.ts`, the `setKeyBind` /
`removeKeyBind` / `formattedModifiers` / `formattedModifiersFrom` /
`keybindsPlugin` module).

JavaScript strings are modelled as lists of characters (`Chars`);
`String.prototype.toLowerCase`, `String.prototype.split` and
`Array.prototype.join` are modelled by `strToLower`, `splitOn` and
`joinSep`, matching the JS semantics (in particular
`"".split("+") = [""]`, never the empty array).  The global `Map` of
keybindings is modelled as an insertion-ordered association list with
JS `Map.set` / `Map.delete` semantics.  Side effects of the module
(`editor.trigger`, `editor.runCommand`, callback invocation,
`event.preventDefault`) are reified as an `Effect` list returned by the
modelled operations.
-/

namespace Keybinds

/-- A JavaScript string, modelled as its list of characters. -/
abbrev Chars := List Char

/-- ASCII model of JS `toLowerCase` applied to one character. -/
def charToLower (c : Char) : Char :=
  if 65 ≤ c.toNat ∧ c.toNat ≤ 90 then Char.ofNat (c.toNat + 32) else c

/-- Model of `String.prototype.toLowerCase`. -/
def strToLower (s : Chars) : Chars := s.map charToLower

/-- Model of `String.prototype.split(sep)` for a one-character
separator.  As in JS, the result is never empty: splitting the empty
string yields `[""]`. -/
def splitOn (sep : Char) : Chars → List Chars
  | [] => [[]]
  | c :: rest =>
    if c = sep then [] :: splitOn sep rest
    else
      match splitOn sep rest with
      | [] => [[c]]
      | t :: ts => (c :: t) :: ts

/-- Model of `Array.prototype.join(sep)` for a one-character
separator. -/
def joinSep (sep : Char) : List Chars → Chars
  | [] => []
  | [s] => s
  | s :: t :: rest => s ++ sep :: joinSep sep (t :: rest)

/-- `const keySep: string = '+'` -/
def keySep : Char := '+'

/-- `const eventName: string = 'keybind'` -/
def eventName : Chars := "keybind".toList

/-- `KeyModifiers.MetaKey = 'meta'` -/
def KeyModifiers.MetaKey : Chars := "meta".toList

/-- `KeyModifiers.CtrlKey = 'ctrl'` -/
def KeyModifiers.CtrlKey : Chars := "ctrl".toList

/-- `KeyModifiers.AltKey = 'alt'` -/
def KeyModifiers.AltKey : Chars := "alt".toList

/-- `KeyModifiers.ShiftKey = 'shift'` -/
def KeyModifiers.ShiftKey : Chars := "shift".toList

/-- The fixed set of valid (lower-case) modifier tokens. -/
def modifierTokens : List Chars :=
  [KeyModifiers.MetaKey, KeyModifiers.CtrlKey, KeyModifiers.AltKey,
   KeyModifiers.ShiftKey]

/-- The observable state of the host GrapesJS editor, as far as this
module reads it: `editor.getEditing()` (the component under rich-text
edition, if any) and `editor.getSelected()` (the selected component, if
any).  Components are opaque handles. -/
structure EditorState where
  editing : Option Nat
  selected : Option Nat

/-- A `KeyboardEvent`, as far as this module reads it: the four
modifier flags, `event.key`, and the tag name of `event.target`
(`none` models a `null` target). -/
structure KbEvent where
  metaKey : Bool
  ctrlKey : Bool
  altKey : Bool
  shiftKey : Bool
  key : Chars
  target : Option Chars

/-- `type TriggerScope = { name, description, condition }`. -/
structure TriggerScope where
  name : String
  description : String
  condition : EditorState → KbEvent → Bool

/-- `TriggerScopes.GLOBAL` -/
def TriggerScopes.GLOBAL : TriggerScope :=
  { name := "Global"
    description := "Applies everywhere in the editor."
    condition := fun _ _ => true }

/-- `TriggerScopes.TEXT_EDIT` -/
def TriggerScopes.TEXT_EDIT : TriggerScope :=
  { name := "Text Edition"
    description := "Applies while editing text."
    condition := fun editor event =>
      let richEditing : Bool := editor.editing.isSome
      let inTextInput : Bool :=
        match event.target with
        | none => false
        | some tag => ["TEXTAREA".toList, "INPUT".toList].contains tag
      richEditing || inTextInput }

/-- `TriggerScopes.GLOBAL_NO_TEXT_EDIT` -/
def TriggerScopes.GLOBAL_NO_TEXT_EDIT : TriggerScope :=
  { name := "Global (Except Text Edition)"
    description := "Applies everywhere but while editing text."
    condition := fun editor event =>
      !(TriggerScopes.TEXT_EDIT.condition editor event) }

/-- `TriggerScopes.COMPONENT_SELECTION` -/
def TriggerScopes.COMPONENT_SELECTION : TriggerScope :=
  { name := "Component Selection"
    description := "Applies when a component is selected."
    condition := fun editor _ => editor.selected.isSome }

/-- The `((editor: Editor) => void) | string` handler union, as a
tagged variant; callbacks are opaque and identified by an id. -/
inductive Handler where
  | cmd (name : String)
  | callback (id : Nat)

/-- `type KeyBind = { key, modifiers, handler, scope, preventDefault }` -/
structure KeyBind where
  key : Chars
  modifiers : Chars
  handler : Handler
  scope : TriggerScope
  preventDefault : Bool

/-- The two errors thrown by the module: `InvalidModifierError`
(`'The key modifier X is invalid.'`, thrown by `formattedModifiers`,
carrying the offending token) and `InvalidKeybindError`
(`'The keybinding K is invalid.'`, thrown by `setKeyBind`, carrying
the whole combination string). -/
inductive KbError where
  | invalidModifier (token : Chars)
  | invalidKeybind (keys : Chars)
deriving DecidableEq

/-- A reified observable side effect of the module. -/
inductive Effect where
  | preventDefault
  | runCommand (name : String)
  | callbackRun (id : Nat)
  | trigger (event : Chars) (payload : Option (KeyBind × KbEvent))

/-- `keybindsMap : Map<string, KeyBind>`, modelled as an
insertion-ordered association list with unique keys. -/
abbrev KbMap := List (Chars × KeyBind)

/-- JS `Map.has`. -/
def mapHas (m : KbMap) (k : Chars) : Bool := m.any (fun p => p.1 == k)

/-- JS `Map.get` (`none` models `undefined`). -/
def mapGet (m : KbMap) (k : Chars) : Option KeyBind :=
  (m.find? (fun p => p.1 == k)).map (fun p => p.2)

/-- JS `Map.set`: replaces the value in place when the key is present,
appends a new entry otherwise. -/
def mapSet (m : KbMap) (k : Chars) (v : KeyBind) : KbMap :=
  match m with
  | [] => [(k, v)]
  | p :: rest => if p.1 == k then (k, v) :: rest else p :: mapSet rest k v

/-- JS `Map.delete` (the removal part; the returned boolean is
`mapHas`). -/
def mapDelete (m : KbMap) (k : Chars) : KbMap :=
  m.filter (fun p => !(p.1 == k))

/-- One arm of the `switch` in `formattedModifiers`: maps a modifier
token to the canonical token pushed onto `ordered`, or throws
`InvalidModifierError` on the original token. -/
def canonModifier (m : Chars) : Except KbError Chars :=
  let lm := strToLower m
  if lm = KeyModifiers.MetaKey then Except.ok KeyModifiers.MetaKey
  else if lm = KeyModifiers.CtrlKey then Except.ok KeyModifiers.CtrlKey
  else if lm = KeyModifiers.AltKey then Except.ok KeyModifiers.AltKey
  else if lm = KeyModifiers.ShiftKey then Except.ok KeyModifiers.ShiftKey
  else Except.error (KbError.invalidModifier m)

/-- The `modifiers.forEach` loop of `formattedModifiers`: pushes the
canonical token for each input token in input order, throwing at the
first invalid token. -/
def formattedModifiersList : List Chars → Except KbError (List Chars)
  | [] => Except.ok []
  | m :: rest =>
    match canonModifier m with
    | Except.error e => Except.error e
    | Except.ok c =>
      match formattedModifiersList rest with
      | Except.error e => Except.error e
      | Except.ok cs => Except.ok (c :: cs)

/-- `formattedModifiers(modifiers: string[]): string` — validates the
tokens and returns `ordered.join(keySep)`. -/
def formattedModifiers (modifiers : List Chars) : Except KbError Chars :=
  (formattedModifiersList modifiers).map (joinSep keySep)

/-- `formattedModifiersFrom(event: KeyboardEvent): string` -/
def formattedModifiersFrom (event : KbEvent) : Chars :=
  joinSep keySep
    ((if event.metaKey then [KeyModifiers.MetaKey] else []) ++
     (if event.ctrlKey then [KeyModifiers.CtrlKey] else []) ++
     (if event.altKey then [KeyModifiers.AltKey] else []) ++
     (if event.shiftKey then [KeyModifiers.ShiftKey] else []))

/-- The storage key `modifiers + keySep + key`. -/
def storageKey (mods key : Chars) : Chars := mods ++ keySep :: key

/-- The key token `setKeyBind` pops: the last segment of the
lower-cased combination split on `keySep`. -/
def parsedKey (keys : Chars) : Chars :=
  (splitOn keySep (strToLower keys)).getLastD []

/-- The modifier tokens `setKeyBind` passes to `formattedModifiers`:
all segments but the last. -/
def parsedModifierTokens (keys : Chars) : List Chars :=
  (splitOn keySep (strToLower keys)).dropLast

/-- `setKeyBind(editor, keys, handler, scope, preventDefault)`.
Returns the thrown error or the returned `KeyBind`, together with the
`keybindsMap` after the call and the list of `editor.trigger` events
emitted during the call (a thrown error aborts the call before any
trigger or map mutation, exactly as in the source). -/
def setKeyBind (m : KbMap) (keys : Chars) (handler : Handler)
    (scope : TriggerScope) (preventDefault : Bool) :
    Except KbError KeyBind × KbMap × List Effect :=
  let splitKeys := splitOn keySep (strToLower keys)
  if splitKeys.length > 0 then
    let key : Chars := splitKeys.getLastD []
    match formattedModifiers splitKeys.dropLast with
    | Except.error e => (Except.error e, m, [])
    | Except.ok modifiers =>
      let keyBind : KeyBind :=
        { key := key, modifiers := modifiers, handler := handler,
          scope := scope, preventDefault := preventDefault }
      let entryKey : Chars := modifiers ++ keySep :: key
      if !(mapHas m entryKey) then
        (Except.ok keyBind, mapSet m entryKey keyBind,
         [Effect.trigger (eventName ++ ":add".toList) none])
      else
        (Except.ok keyBind, mapSet m entryKey keyBind,
         [Effect.trigger (eventName ++ ":update".toList) none])
  else
    (Except.error (KbError.invalidKeybind keys), m, [])

/-- `removeKeyBind(editor, keys)`: returns whether an entry was
present, the map after the call, and the events emitted. -/
def removeKeyBind (m : KbMap) (keys : Chars) :
    Bool × KbMap × List Effect :=
  let wasPresent : Bool := mapHas m keys
  (wasPresent, mapDelete m keys,
   if wasPresent then [Effect.trigger (eventName ++ ":remove".toList) none]
   else [])

/-- The `keybindsMap.forEach` loop of the `keydown` listener installed
by `keybindsPlugin`, over the list of map entries.  The registry state
is threaded through each iteration (the loop body never mutates it,
which is what the threading makes provable).  Produces the effects in
the order the source performs them. -/
def dispatchAux (editor : EditorState) (modifiers : Chars)
    (event : KbEvent) : List (Chars × KeyBind) → KbMap → KbMap × List Effect
  | [], st => (st, [])
  | (_, keybind) :: rest, st =>
    if keybind.modifiers == modifiers &&
       keybind.key == strToLower event.key &&
       keybind.scope.condition editor event then
      let keyId : Chars := keybind.modifiers ++ keySep :: keybind.key
      let effs : List Effect :=
        (if keybind.preventDefault then [Effect.preventDefault] else []) ++
        (match keybind.handler with
         | Handler.cmd name => [Effect.runCommand name]
         | Handler.callback id => [Effect.callbackRun id]) ++
        [Effect.trigger (eventName ++ ":emit".toList) (some (keybind, event)),
         Effect.trigger (eventName ++ ":emit:".toList ++ keyId)
           (some (keybind, event))]
      let next := dispatchAux editor modifiers event rest st
      (next.1, effs ++ next.2)
    else
      dispatchAux editor modifiers event rest st

/-- One `keydown` event delivered to the listener installed by
`keybindsPlugin`: computes the event's canonical modifier string and
runs the `forEach` over the current registry. -/
def keydownHandler (editor : EditorState) (m : KbMap) (event : KbEvent) :
    KbMap × List Effect :=
  let modifiers : Chars := formattedModifiersFrom event
  dispatchAux editor modifiers event m m

/-- Specification-side predicate: a registered binding matches an
event when its `(modifiers, key)` pair equals the event's canonical
pair and its scope condition holds. -/
def matchesEvent (editor : EditorState) (event : KbEvent)
    (keybind : KeyBind) : Bool :=
  keybind.modifiers == formattedModifiersFrom event &&
  keybind.key == strToLower event.key &&
  keybind.scope.condition editor event

/-- Specification-side description of the effect sequence the dispatch
loop performs for one matching binding. -/
def bindEffects (event : KbEvent) (keybind : KeyBind) : List Effect :=
  (if keybind.preventDefault then [Effect.preventDefault] else []) ++
  (match keybind.handler with
   | Handler.cmd name => [Effect.runCommand name]
   | Handler.callback id => [Effect.callbackRun id]) ++
  [Effect.trigger (eventName ++ ":emit".toList) (some (keybind, event)),
   Effect.trigger
     (eventName ++ ":emit:".toList ++ storageKey keybind.modifiers keybind.key)
     (some (keybind, event))]

/-! ## Helper lemmas about the string model -/

/-- `splitOn` never returns the empty list (as in JS, where
`"".split("+")` is `[""]`). -/
theorem splitOn_ne_nil (sep : Char) (s : Chars) : splitOn sep s ≠ [] := by
  induction s with
  | nil => simp [splitOn]
  | cons c rest ih =>
    simp only [splitOn]
    split
    · simp
    · split
      · simp
      · simp

/-- Characters of a segment of `splitOn` are characters of the input. -/
theorem mem_of_mem_splitOn (sep : Char) (s t : Chars) (c : Char)
    (ht : t ∈ splitOn sep s) (hc : c ∈ t) : c ∈ s := by
  induction s generalizing t with
  | nil =>
    simp [splitOn] at ht
    subst ht
    simp at hc
  | cons a rest ih =>
    simp only [splitOn] at ht
    by_cases ha : a = sep
    · rw [if_pos ha] at ht
      rcases List.mem_cons.mp ht with h | h
      · subst h; simp at hc
      · exact List.mem_cons_of_mem a (ih t h hc)
    · rw [if_neg ha] at ht
      rcases hsplit : splitOn sep rest with _ | ⟨t0, ts⟩
      · exact absurd hsplit (splitOn_ne_nil sep rest)
      · rw [hsplit] at ht
        rcases List.mem_cons.mp ht with h | h
        · subst h
          rcases List.mem_cons.mp hc with h | h
          · subst h; exact List.mem_cons_self _ _
          · refine List.mem_cons_of_mem a (ih t0 ?_ h)
            rw [hsplit]; exact List.mem_cons_self t0 ts
        · refine List.mem_cons_of_mem a (ih t ?_ hc)
          rw [hsplit]; exact List.mem_cons_of_mem t0 h

/-- No segment of `splitOn` contains the separator. -/
theorem sep_not_mem_of_mem_splitOn (sep : Char) (s t : Chars)
    (ht : t ∈ splitOn sep s) : sep ∉ t := by
  induction s generalizing t with
  | nil =>
    simp [splitOn] at ht
    subst ht
    simp
  | cons a rest ih =>
    simp only [splitOn] at ht
    by_cases ha : a = sep
    · rw [if_pos ha] at ht
      rcases List.mem_cons.mp ht with h | h
      · subst h; simp
      · exact ih t h
    · rw [if_neg ha] at ht
      rcases hsplit : splitOn sep rest with _ | ⟨t0, ts⟩
      · exact absurd hsplit (splitOn_ne_nil sep rest)
      · rw [hsplit] at ht
        rcases List.mem_cons.mp ht with h | h
        · subst h
          intro hmem
          rcases List.mem_cons.mp hmem with h | h
          · exact ha h.symm
          · refine ih t0 ?_ h
            rw [hsplit]; exact List.mem_cons_self t0 ts
        · refine ih t ?_
          rw [hsplit]; exact List.mem_cons_of_mem t0 h

/-- ASCII lower-casing is idempotent. -/
theorem charToLower_idem (c : Char) : charToLower (charToLower c) = charToLower c := by
  unfold charToLower
  split
  · rename_i h
    obtain ⟨h1, h2⟩ := h
    set n := c.toNat with hn
    interval_cases n <;> decide
  · rfl

/-- Every character of a lower-cased string is fixed by lower-casing. -/
theorem charToLower_of_mem_strToLower (s : Chars) (c : Char)
    (hc : c ∈ strToLower s) : charToLower c = c := by
  unfold strToLower at hc
  obtain ⟨d, _, rfl⟩ := List.mem_map.mp hc
  exact charToLower_idem d

/-- A string all of whose characters are fixed by lower-casing is
fixed by `strToLower`. -/
theorem strToLower_eq_self (s : Chars) (h : ∀ c ∈ s, charToLower c = c) :
    strToLower s = s := by
  unfold strToLower
  induction s with
  | nil => rfl
  | cons a rest ih =>
    simp only [List.map_cons]
    rw [h a (List.mem_cons_self a rest),
      ih (fun c hc => h c (List.mem_cons_of_mem a hc))]

/-- `getLastD` of a nonempty list is a member of the list. -/
theorem getLastD_mem {α : Type} (l : List α) (d : α) (h : l ≠ []) :
    l.getLastD d ∈ l := by
  induction l generalizing d with
  | nil => exact absurd rfl h
  | cons a rest ih =>
    rw [List.getLastD_cons]
    cases rest with
    | nil => simp [List.getLastD]
    | cons b t =>
      exact List.mem_cons_of_mem a (ih a (by simp))

/-! ## Helper lemmas about the canonicalizer, the map and the dispatcher -/

/-- A token whose lower-casing is one of the four valid modifiers is
mapped by the `switch` to its lower-casing. -/
theorem canonModifier_ok (t : Chars) (h : strToLower t ∈ modifierTokens) :
    canonModifier t = Except.ok (strToLower t) := by
  simp only [modifierTokens, List.mem_cons, List.not_mem_nil, or_false] at h
  simp only [canonModifier]
  rcases h with h | h | h | h <;> rw [h] <;> rfl

/-- A token whose lower-casing is not a valid modifier makes the
`switch` throw `InvalidModifierError` on the original token. -/
theorem canonModifier_err (t : Chars) (h : strToLower t ∉ modifierTokens) :
    canonModifier t = Except.error (KbError.invalidModifier t) := by
  simp only [modifierTokens, List.mem_cons, List.not_mem_nil, or_false, not_or] at h
  obtain ⟨h1, h2, h3, h4⟩ := h
  simp only [canonModifier]
  rw [if_neg h1, if_neg h2, if_neg h3, if_neg h4]

/-- If some token of the list is invalid, the `forEach` loop throws
`InvalidModifierError` on an invalid token of the list. -/
theorem formattedModifiersList_err (l : List Chars)
    (h : ∃ t ∈ l, strToLower t ∉ modifierTokens) :
    ∃ t, t ∈ l ∧ strToLower t ∉ modifierTokens ∧
      formattedModifiersList l = Except.error (KbError.invalidModifier t) := by
  induction l with
  | nil => simp at h
  | cons a rest ih =>
    by_cases ha : strToLower a ∈ modifierTokens
    · have hrest : ∃ t ∈ rest, strToLower t ∉ modifierTokens := by
        obtain ⟨t, ht, hbad⟩ := h
        rcases List.mem_cons.mp ht with rfl | hmem
        · exact absurd ha hbad
        · exact ⟨t, hmem, hbad⟩
      obtain ⟨t, ht, hbad, herr⟩ := ih hrest
      refine ⟨t, List.mem_cons_of_mem a ht, hbad, ?_⟩
      simp only [formattedModifiersList, canonModifier_ok a ha, herr]
    · refine ⟨a, List.mem_cons_self a rest, ha, ?_⟩
      simp only [formattedModifiersList, canonModifier_err a ha]

/-- Unfolding of `Map.get` on a nonempty association list. -/
theorem mapGet_cons (p : Chars × KeyBind) (rest : KbMap) (k : Chars) :
    mapGet (p :: rest) k = if p.1 == k then some p.2 else mapGet rest k := by
  simp only [mapGet, List.find?_cons]
  cases h : p.1 == k
  · simp
  · simp

/-- `Map.get` after `Map.set` at the same key yields the new value. -/
theorem mapGet_mapSet_self (m : KbMap) (k : Chars) (v : KeyBind) :
    mapGet (mapSet m k v) k = some v := by
  induction m with
  | nil =>
    simp only [mapSet]
    rw [mapGet_cons]
    simp
  | cons p rest ih =>
    simp only [mapSet]
    cases hb : p.1 == k
    · simp only [Bool.false_eq_true, if_false]
      rw [mapGet_cons, if_neg (by simp [hb])]
      exact ih
    · simp only [if_true]
      rw [mapGet_cons]
      simp

/-- `Map.delete` of an absent key leaves the map unchanged. -/
theorem mapDelete_of_not_has (m : KbMap) (k : Chars) (h : mapHas m k = false) :
    mapDelete m k = m := by
  induction m with
  | nil => rfl
  | cons p rest ih =>
    simp only [mapHas, List.any_cons, Bool.or_eq_false_iff] at h
    have ih2 : mapDelete rest k = rest := ih h.2
    simp only [mapDelete, List.filter_cons, h.1] at ih2 ⊢
    simp [ih2]

/-- `Map.get` after `Map.delete` at the same key yields nothing. -/
theorem mapGet_mapDelete_self (m : KbMap) (k : Chars) :
    mapGet (mapDelete m k) k = none := by
  induction m with
  | nil => rfl
  | cons p rest ih =>
    by_cases h : (p.1 == k) = true
    · simpa [mapDelete, List.filter_cons, h] using ih
    · have hkeep : (!(p.1 == k)) = true := by
        simp [Bool.not_eq_true'] at h ⊢
        exact h
      simp only [mapDelete, List.filter_cons, hkeep, if_true] at ih ⊢
      rw [mapGet_cons, if_neg h]
      exact ih

/-- The dispatch loop threads the registry state through unchanged. -/
theorem dispatchAux_state (editor : EditorState) (mods : Chars)
    (event : KbEvent) (l : List (Chars × KeyBind)) (st : KbMap) :
    (dispatchAux editor mods event l st).1 = st := by
  induction l with
  | nil => rfl
  | cons p rest ih =>
    obtain ⟨k, kb⟩ := p
    simp only [dispatchAux]
    split
    · simpa using ih
    · exact ih

/-- The dispatch loop produces, in order, exactly the effect blocks of
the matching bindings. -/
theorem dispatchAux_effects (editor : EditorState) (event : KbEvent)
    (l : List (Chars × KeyBind)) (st : KbMap) :
    (dispatchAux editor (formattedModifiersFrom event) event l st).2 =
      ((l.filter (fun p => matchesEvent editor event p.2)).map
        (fun p => bindEffects event p.2)).flatten := by
  induction l with
  | nil => rfl
  | cons p rest ih =>
    obtain ⟨k, kb⟩ := p
    simp only [dispatchAux, List.filter_cons, matchesEvent]
    by_cases h : (kb.modifiers == formattedModifiersFrom event &&
        kb.key == strToLower event.key &&
        kb.scope.condition editor event) = true
    · rw [if_pos h, if_pos h]
      simp only [List.map_cons, List.flatten_cons, ih, bindEffects, storageKey,
        matchesEvent]
    · rw [if_neg h, if_neg h]
      exact ih

/-- When `formattedModifiers` throws, `setKeyBind` propagates the
error untouched (the guard `splitKeys.length > 0` always holds, so the
`InvalidKeybindError` branch is never taken). -/
theorem setKeyBind_err (m : KbMap) (keys : Chars) (hnd : Handler)
    (sc : TriggerScope) (pd : Bool) (e : KbError)
    (herr : formattedModifiers (parsedModifierTokens keys) = Except.error e) :
    setKeyBind m keys hnd sc pd = (Except.error e, m, []) := by
  simp only [parsedModifierTokens] at herr
  simp only [setKeyBind]
  rw [if_pos (List.length_pos.mpr (splitOn_ne_nil keySep (strToLower keys))), herr]

/-- When `formattedModifiers` succeeds, `setKeyBind` stores the new
`KeyBind` under the storage key, triggering `add` or `update` exactly
as the code does. -/
theorem setKeyBind_ok (m : KbMap) (keys : Chars) (hnd : Handler)
    (sc : TriggerScope) (pd : Bool) (mods : Chars)
    (hok : formattedModifiers (parsedModifierTokens keys) = Except.ok mods) :
    setKeyBind m keys hnd sc pd =
      if !(mapHas m (storageKey mods (parsedKey keys))) then
        (Except.ok ⟨parsedKey keys, mods, hnd, sc, pd⟩,
         mapSet m (storageKey mods (parsedKey keys))
           ⟨parsedKey keys, mods, hnd, sc, pd⟩,
         [Effect.trigger (eventName ++ ":add".toList) none])
      else
        (Except.ok ⟨parsedKey keys, mods, hnd, sc, pd⟩,
         mapSet m (storageKey mods (parsedKey keys))
           ⟨parsedKey keys, mods, hnd, sc, pd⟩,
         [Effect.trigger (eventName ++ ":update".toList) none]) := by
  simp only [parsedModifierTokens] at hok
  simp only [setKeyBind, parsedKey, storageKey]
  rw [if_pos (List.length_pos.mpr (splitOn_ne_nil keySep (strToLower keys))), hok]

/-! ## Claim theorems -/

/-- C1: the claim fails on the code (code bug).  `formattedModifiers`
preserves the input order of the modifier tokens instead of producing
the canonical order `meta, ctrl, alt, shift` that its own doc comment
promises.  Concretely: parsing the permutation `shift, alt, ctrl`
yields `"shift+alt+ctrl"` while `formattedModifiersFrom` yields
`"ctrl+alt+shift"` for an event with exactly ctrl, alt and shift set;
and registering `"ctrl+alt+shift+t"` then `"shift+alt+ctrl+t"` stores
two distinct entries (the second triggers `add`, not `update`). -/
theorem modifier_order_bug :
    formattedModifiers ["shift".toList, "alt".toList, "ctrl".toList] =
      Except.ok "shift+alt+ctrl".toList ∧
    formattedModifiersFrom ⟨false, true, true, true, "t".toList, none⟩ =
      "ctrl+alt+shift".toList ∧
    "shift+alt+ctrl".toList ≠ "ctrl+alt+shift".toList ∧
    ((setKeyBind
        (setKeyBind [] "ctrl+alt+shift+t".toList (Handler.cmd "a")
          TriggerScopes.GLOBAL true).2.1
        "shift+alt+ctrl+t".toList (Handler.cmd "b")
        TriggerScopes.GLOBAL true).2.1.map (fun p => p.1)) =
      ["ctrl+alt+shift+t".toList, "shift+alt+ctrl+t".toList] ∧
    (setKeyBind
        (setKeyBind [] "ctrl+alt+shift+t".toList (Handler.cmd "a")
          TriggerScopes.GLOBAL true).2.1
        "shift+alt+ctrl+t".toList (Handler.cmd "b")
        TriggerScopes.GLOBAL true).2.2 =
      [Effect.trigger (eventName ++ ":add".toList) none] :=
  ⟨rfl, rfl, by decide, rfl, rfl⟩

/-- C2: the claim fails on the code (code bug).  A modifier string
produced by `formattedModifiers` can list modifiers out of the fixed
priority order (`"shift+ctrl"`) and can contain duplicates
(`"ctrl+ctrl"`), and such strings reach the registry through
`setKeyBind`; only the "tokens from the fixed set" part of the claim
holds. -/
theorem modifier_string_dup_order_bug :
    formattedModifiers ["shift".toList, "ctrl".toList] =
      Except.ok "shift+ctrl".toList ∧
    formattedModifiers ["ctrl".toList, "ctrl".toList] =
      Except.ok "ctrl+ctrl".toList ∧
    ((setKeyBind [] "ctrl+ctrl+t".toList (Handler.cmd "x")
        TriggerScopes.GLOBAL true).2.1.map (fun p => p.2.modifiers)) =
      ["ctrl+ctrl".toList] :=
  ⟨rfl, rfl, rfl⟩

/-- C3: the claim fails on the code (code bug).  In JS,
`"".split("+")` is `[""]`, never `[]`, so the guard
`splitKeys.length > 0` is always true and the `InvalidKeybindError`
branch is dead code (`splitOn_ne_nil`).  `setKeyBind` on the empty
string therefore succeeds, storing a `KeyBind` with empty key and
empty modifiers under the storage key `"+"` and triggering `add`;
`setKeyBind` on `"+"` throws `InvalidModifierError` on the empty token
instead of `InvalidKeybindError`. -/
theorem empty_keybind_bug :
    (setKeyBind [] [] (Handler.cmd "x") TriggerScopes.GLOBAL true).1 =
      Except.ok ⟨[], [], Handler.cmd "x", TriggerScopes.GLOBAL, true⟩ ∧
    ((setKeyBind [] [] (Handler.cmd "x") TriggerScopes.GLOBAL
        true).2.1.map (fun p => p.1)) = [[keySep]] ∧
    (setKeyBind [] [] (Handler.cmd "x") TriggerScopes.GLOBAL true).2.2 =
      [Effect.trigger (eventName ++ ":add".toList) none] ∧
    (setKeyBind [] [keySep] (Handler.cmd "x") TriggerScopes.GLOBAL true).1 =
      Except.error (KbError.invalidModifier []) :=
  ⟨rfl, rfl, rfl, rfl⟩

/-- C4: confirmed.  If the combination contains a modifier token
outside the fixed set, `setKeyBind` throws `InvalidModifierError`
naming an offending token of the combination, the registry is
unchanged and no notification is emitted. -/
theorem setKeyBind_invalid_modifier_atomic (m : KbMap) (keys : Chars)
    (hnd : Handler) (sc : TriggerScope) (pd : Bool)
    (hbad : ∃ t ∈ parsedModifierTokens keys, strToLower t ∉ modifierTokens) :
    ∃ t, t ∈ parsedModifierTokens keys ∧ strToLower t ∉ modifierTokens ∧
      setKeyBind m keys hnd sc pd =
        (Except.error (KbError.invalidModifier t), m, []) := by
  obtain ⟨t, ht, hbadt, herr⟩ :=
    formattedModifiersList_err (parsedModifierTokens keys) hbad
  refine ⟨t, ht, hbadt, setKeyBind_err m keys hnd sc pd _ ?_⟩
  simp only [formattedModifiers, herr]
  rfl

/-- Witness for C4 at the combination `"foo+t"`. -/
theorem setKeyBind_invalid_modifier_atomic_witness :
    ∃ t, t ∈ parsedModifierTokens "foo+t".toList ∧
      strToLower t ∉ modifierTokens ∧
      setKeyBind [] "foo+t".toList (Handler.cmd "x") TriggerScopes.GLOBAL
          true =
        (Except.error (KbError.invalidModifier t), [], []) :=
  setKeyBind_invalid_modifier_atomic [] "foo+t".toList (Handler.cmd "x")
    TriggerScopes.GLOBAL true ⟨"foo".toList, by decide, by decide⟩

/-- C5: confirmed.  On a valid combination, `setKeyBind` emits exactly
one notification — `update` when an entry exists under the storage
key, `add` otherwise — replaces the binding under that storage key,
and returns the newly stored `KeyBind`. -/
theorem setKeyBind_lifecycle (m : KbMap) (keys : Chars) (hnd : Handler)
    (sc : TriggerScope) (pd : Bool) (mods : Chars)
    (hok : formattedModifiers (parsedModifierTokens keys) = Except.ok mods) :
    setKeyBind m keys hnd sc pd =
      (Except.ok ⟨parsedKey keys, mods, hnd, sc, pd⟩,
       mapSet m (storageKey mods (parsedKey keys))
         ⟨parsedKey keys, mods, hnd, sc, pd⟩,
       [Effect.trigger
          (eventName ++
           (if mapHas m (storageKey mods (parsedKey keys)) then ":update".toList
            else ":add".toList)) none]) ∧
    mapGet (mapSet m (storageKey mods (parsedKey keys))
        ⟨parsedKey keys, mods, hnd, sc, pd⟩)
      (storageKey mods (parsedKey keys)) =
      some ⟨parsedKey keys, mods, hnd, sc, pd⟩ := by
  refine ⟨?_, mapGet_mapSet_self _ _ _⟩
  rw [setKeyBind_ok m keys hnd sc pd mods hok]
  by_cases hb : mapHas m (storageKey mods (parsedKey keys)) = true
  · rw [hb, if_neg (by decide), if_pos rfl]
  · rw [Bool.not_eq_true] at hb
    rw [hb, if_pos (by decide), if_neg (by decide)]

/-- Witness for C5 at the combination `"ctrl+d"` on the empty
registry. -/
theorem setKeyBind_lifecycle_witness :
    setKeyBind [] "ctrl+d".toList (Handler.cmd "run") TriggerScopes.GLOBAL
        true =
      (Except.ok ⟨parsedKey "ctrl+d".toList, "ctrl".toList,
         Handler.cmd "run", TriggerScopes.GLOBAL, true⟩,
       mapSet [] (storageKey "ctrl".toList (parsedKey "ctrl+d".toList))
         ⟨parsedKey "ctrl+d".toList, "ctrl".toList, Handler.cmd "run",
          TriggerScopes.GLOBAL, true⟩,
       [Effect.trigger
          (eventName ++
           (if mapHas [] (storageKey "ctrl".toList (parsedKey "ctrl+d".toList))
            then ":update".toList else ":add".toList)) none]) ∧
    mapGet (mapSet [] (storageKey "ctrl".toList (parsedKey "ctrl+d".toList))
        ⟨parsedKey "ctrl+d".toList, "ctrl".toList, Handler.cmd "run",
         TriggerScopes.GLOBAL, true⟩)
      (storageKey "ctrl".toList (parsedKey "ctrl+d".toList)) =
      some ⟨parsedKey "ctrl+d".toList, "ctrl".toList, Handler.cmd "run",
        TriggerScopes.GLOBAL, true⟩ :=
  setKeyBind_lifecycle [] "ctrl+d".toList (Handler.cmd "run")
    TriggerScopes.GLOBAL true "ctrl".toList rfl

/-- C6: confirmed.  `removeKeyBind` returns whether an entry was
present; when present it deletes the entry (a later lookup of the key
finds nothing) and emits exactly one `remove` notification; when
absent it emits nothing and leaves the registry unchanged. -/
theorem removeKeyBind_spec (m : KbMap) (k : Chars) :
    removeKeyBind m k =
      (mapHas m k,
       if mapHas m k then mapDelete m k else m,
       if mapHas m k then [Effect.trigger (eventName ++ ":remove".toList) none]
       else []) ∧
    mapGet (mapDelete m k) k = none := by
  refine ⟨?_, mapGet_mapDelete_self m k⟩
  by_cases hb : mapHas m k = true
  · simp [removeKeyBind, hb]
  · rw [Bool.not_eq_true] at hb
    simp [removeKeyBind, hb, mapDelete_of_not_has m k hb]

/-- C7: confirmed.  The `keydown` handler acts on exactly the
registered bindings whose `(modifiers, key)` pair equals the event's
canonical pair and whose scope condition holds, and for each such
binding produces, in order: the optional default suppression, the
action invocation (command by name or callback with the host context),
the generic `keybind:emit` notification with the binding and event,
and the storage-key-namespaced notification with the same payload;
non-matching bindings contribute no effect. -/
theorem keydownHandler_dispatch (editor : EditorState) (m : KbMap)
    (event : KbEvent) :
    (keydownHandler editor m event).2 =
      ((m.filter (fun p => matchesEvent editor event p.2)).map
        (fun p => bindEffects event p.2)).flatten :=
  dispatchAux_effects editor event m m

/-- C8: confirmed.  `GLOBAL` holds for every host/event pair;
`GLOBAL_NO_TEXT_EDIT` is the pointwise boolean negation of
`TEXT_EDIT`; `TEXT_EDIT` holds iff the host reports a rich-text
editing component or the event target is a `TEXTAREA` or an `INPUT`
element; `COMPONENT_SELECTION` holds iff the host reports a selected
component. -/
theorem triggerScopes_spec :
    (∀ (editor : EditorState) (event : KbEvent),
      TriggerScopes.GLOBAL.condition editor event = true) ∧
    (∀ (editor : EditorState) (event : KbEvent),
      TriggerScopes.GLOBAL_NO_TEXT_EDIT.condition editor event =
        !(TriggerScopes.TEXT_EDIT.condition editor event)) ∧
    (∀ (editor : EditorState) (event : KbEvent),
      (TriggerScopes.TEXT_EDIT.condition editor event = true ↔
        editor.editing.isSome = true ∨
          event.target = some "TEXTAREA".toList ∨
          event.target = some "INPUT".toList)) ∧
    (∀ (editor : EditorState) (event : KbEvent),
      (TriggerScopes.COMPONENT_SELECTION.condition editor event = true ↔
        editor.selected.isSome = true)) := by
  refine ⟨fun editor event => rfl, fun editor event => rfl, ?_, ?_⟩
  · intro editor event
    cases ht : event.target with
    | none => simp [TriggerScopes.TEXT_EDIT, ht]
    | some tag => simp [TriggerScopes.TEXT_EDIT, ht]
  · intro editor event
    simp [TriggerScopes.COMPONENT_SELECTION]

/-- C9 counterexample: registering `"ctrl+ t"` stores a `KeyBind`
whose key `" t"` contains whitespace, so the claim's "no whitespace"
part is false as stated. -/
theorem stored_key_whitespace_counterexample :
    ((setKeyBind [] "ctrl+ t".toList (Handler.cmd "x") TriggerScopes.GLOBAL
        true).2.1.map (fun p => p.2.key)) = [" t".toList] ∧
    ' ' ∈ " t".toList :=
  ⟨rfl, by decide⟩

/-- C9 (amended): every `KeyBind` returned (and stored) by
`setKeyBind` has a key that is entirely lowercase (fixed by
`strToLower`) and a single token containing no separator character. -/
theorem setKeyBind_key_lower_no_sep (m : KbMap) (keys : Chars)
    (hnd : Handler) (sc : TriggerScope) (pd : Bool) (kb : KeyBind)
    (h : (setKeyBind m keys hnd sc pd).1 = Except.ok kb) :
    strToLower kb.key = kb.key ∧ keySep ∉ kb.key := by
  have hkey : kb.key = parsedKey keys := by
    cases hfm : formattedModifiers (parsedModifierTokens keys) with
    | error e =>
      rw [setKeyBind_err m keys hnd sc pd e hfm] at h
      cases h
    | ok mods =>
      rw [setKeyBind_ok m keys hnd sc pd mods hfm] at h
      by_cases hb : mapHas m (storageKey mods (parsedKey keys)) = true
      · rw [hb, if_neg (by decide)] at h
        have h2 : Except.ok (⟨parsedKey keys, mods, hnd, sc, pd⟩ : KeyBind) =
            Except.ok kb := h
        injection h2 with h3
        rw [← h3]
      · rw [Bool.not_eq_true] at hb
        rw [hb, if_pos (by decide)] at h
        have h2 : Except.ok (⟨parsedKey keys, mods, hnd, sc, pd⟩ : KeyBind) =
            Except.ok kb := h
        injection h2 with h3
        rw [← h3]
  rw [hkey]
  have hmem : parsedKey keys ∈ splitOn keySep (strToLower keys) :=
    getLastD_mem _ _ (splitOn_ne_nil keySep (strToLower keys))
  constructor
  · exact strToLower_eq_self _ (fun c hc =>
      charToLower_of_mem_strToLower keys c
        (mem_of_mem_splitOn keySep (strToLower keys) (parsedKey keys) c hmem hc))
  · exact sep_not_mem_of_mem_splitOn keySep (strToLower keys) _ hmem

/-- Witness for C9 (amended) at the combination `"Ctrl+T"`. -/
theorem setKeyBind_key_lower_no_sep_witness :
    strToLower "t".toList = "t".toList ∧ keySep ∉ "t".toList :=
  setKeyBind_key_lower_no_sep [] "Ctrl+T".toList (Handler.cmd "x")
    TriggerScopes.GLOBAL true
    ⟨"t".toList, "ctrl".toList, Handler.cmd "x", TriggerScopes.GLOBAL, true⟩
    rfl

/-- C10: confirmed.  The `keydown` handler never mutates the registry:
the map it finishes with is the map it started from (the loop body
only reads entries; only `setKeyBind` and `removeKeyBind` produce a
different map). -/
theorem keydownHandler_registry_unchanged (editor : EditorState)
    (m : KbMap) (event : KbEvent) :
    (keydownHandler editor m event).1 = m :=
  dispatchAux_state editor (formattedModifiersFrom event) event m m

end Keybinds
